import Mathlib

set_option maxHeartbeats 1000000

/- Verification development for the envsure core: a shallow embedding of
   src/parser.ts and src/commands/explain.ts. JS strings are modelled as
   Lean `String` (a list of characters; JS `.length`/indices are UTF-16
   code units, which agree with code points on the BMP inputs considered
   here). JS `Map` is modelled as an insertion-ordered association list
   where setting an existing key updates it in place. File I/O is
   abstracted: the file content is an `Option String` (`none` = missing or
   unreadable file) and path resolution is the identity, since the
   error message uses the unresolved path. -/

namespace Envsure

/- The ECMAScript WhiteSpace and LineTerminator characters removed by
   JS `String.prototype.trim`. -/
def jsWhitespaceChars : List Char :=
  [' ', '\t', '\n', '\x0b', '\x0c', '\r', ' ', ' ',
   ' ', ' ', ' ', ' ', ' ', ' ',
   ' ', ' ', ' ', ' ', ' ',
   ' ', ' ', ' ', ' ', '　', '﻿']

def isJsWhitespace (c : Char) : Bool := jsWhitespaceChars.contains c

def trimChars (cs : List Char) : List Char :=
  ((cs.dropWhile isJsWhitespace).reverse.dropWhile isJsWhitespace).reverse

/- JS `s.trim()`. -/
def jsTrim (s : String) : String := ⟨trimChars s.data⟩

/- JS `s.toLowerCase()` (ASCII range; env keys are ASCII). -/
def jsToLower (s : String) : String := ⟨s.data.map Char.toLower⟩

/- The ECMAScript LineTerminator set: exactly the characters that the
   regex metacharacter `.` does NOT match. -/
def isLineTerminator (c : Char) : Bool :=
  c == '\n' || c == '\r' || c == ' ' || c == ' '

/- One pass of JS `value.replace(/\\X/g, rep)` for a two-character
   pattern backslash-`b`: left-to-right, non-overlapping. -/
def replacePair (b : Char) (rep : Char) : List Char → List Char
  | [] => []
  | [c] => [c]
  | c :: d :: rest =>
    if c = '\\' ∧ d = b then rep :: replacePair b rep rest
    else c :: replacePair b rep (d :: rest)

/- `value.replace(/\\"/g, '"').replace(/\\n/g, '\n').replace(/\\t/g, '\t')`
   from parseValue (parser.ts line 131), applied in source order. -/
def unescapeDouble (cs : List Char) : List Char :=
  replacePair 't' '\t' (replacePair 'n' '\n' (replacePair '"' '"' cs))

/- JS `s.includes(sub)`: substring containment over char lists. -/
def listIsInfixOf (pat : List Char) : List Char → Bool
  | [] => pat.isEmpty
  | c :: rest => pat.isPrefixOf (c :: rest) || listIsInfixOf pat rest

/- JS `trimmed.indexOf(' #')`: index of the first occurrence of the
   two-character substring space-hash, `none` when absent. -/
def findSpaceHash : List Char → Option Nat
  | ' ' :: '#' :: _ => some 0
  | _ :: rest => (findSpaceHash rest).map (· + 1)
  | [] => none

/- Severity of a parse diagnostic ('error' | 'warning' in types.ts). -/
inductive ErrType where
  | error
  | warning
deriving DecidableEq, Repr

/- types.ts `ParseError`. -/
structure ParseError where
  line : Nat
  message : String
  type : ErrType
deriving DecidableEq, Repr

/- types.ts `EnvVariable`. -/
structure EnvVariable where
  key : String
  value : String
  line : Nat
  comments : List String
  hasQuotes : Bool
  quoteChar : Option Char
deriving DecidableEq, Repr

/- JS `Map` model: insertion-ordered association list. -/
def mapHas {α : Type} (m : List (String × α)) (k : String) : Bool :=
  m.any (fun p => p.1 == k)

def mapGet {α : Type} (m : List (String × α)) (k : String) : Option α :=
  (m.find? (fun p => p.1 == k)).map (fun p => p.2)

/- `Map.set`: updates the existing binding in place (position kept),
   otherwise appends a new binding. -/
def mapSet {α : Type} (m : List (String × α)) (k : String) (v : α) : List (String × α) :=
  if mapHas m k then m.map (fun p => if p.1 == k then (k, v) else p)
  else m ++ [(k, v)]

def mapKeys {α : Type} (m : List (String × α)) : List String := m.map (fun p => p.1)

/- parser.ts lines 79-83: `keyLines.get(key)!.push(lineNumber)` or
   `keyLines.set(key, [lineNumber])`. -/
def keyLinesAdd (m : List (String × List Nat)) (k : String) (n : Nat) : List (String × List Nat) :=
  if mapHas m k then m.map (fun p => if p.1 == k then (p.1, p.2 ++ [n]) else p)
  else m ++ [(k, [n])]

/- Result record of parseValue (parser.ts line 121). -/
structure ParsedValue where
  value : String
  hasQuotes : Bool
  quoteChar : Option Char
deriving DecidableEq, Repr

/- parser.ts `parseValue` (lines 121-149). -/
def parseValue (rawValue : String) : ParsedValue :=
  let trimmed := jsTrim rawValue
  let cs := trimmed.data
  if (cs.head? = some '"' ∧ cs.getLast? = some '"') ∨
     (cs.head? = some '\'' ∧ cs.getLast? = some '\'') then
    let quoteChar := cs.headD ' '
    let inner := (cs.drop 1).dropLast
    let value := if quoteChar = '"' then unescapeDouble inner else inner
    { value := ⟨value⟩, hasQuotes := true, quoteChar := some quoteChar }
  else if cs.head? = some '"' ∨ cs.head? = some '\'' then
    { value := trimmed, hasQuotes := false, quoteChar := none }
  else
    match findSpaceHash cs with
    | some i => { value := ⟨trimChars (cs.take i)⟩, hasQuotes := false, quoteChar := none }
    | none => { value := trimmed, hasQuotes := false, quoteChar := none }

/- JS `line.match(/^([^=]+)=(.*)$/)` (parser.ts line 48). The match
   succeeds iff the line splits at its first `=` into a non-empty prefix
   (matched by `[^=]+`, which may contain any character but `=`,
   including line terminators) and a suffix free of LineTerminator
   characters (`.` does not match them, and `$` without the `m` flag is
   end of input). `match[1]` is the prefix, `match[2]` the suffix. -/
def matchAssignment (line : String) : Option (String × String) :=
  let cs := line.data
  let pre := cs.takeWhile (fun c => c != '=')
  let rest := cs.dropWhile (fun c => c != '=')
  match rest with
  | [] => none
  | _ :: post =>
    if pre.isEmpty then none
    else if post.any isLineTerminator then none
    else some (⟨pre⟩, ⟨post⟩)

/- Loop state of parseEnvFile's single forward pass. -/
structure ParseState where
  vars : List (String × EnvVariable)
  keyLines : List (String × List Nat)
  errors : List ParseError
  pendingComments : List String
deriving DecidableEq, Repr

/- parser.ts line 54. -/
def invalidSyntaxMsg (trimmedLine : String) : String :=
  "Invalid syntax: \"" ++ (⟨trimmedLine.data.take 50⟩ : String) ++
    (if trimmedLine.data.length > 50 then "..." else "") ++ "\""

/- parser.ts line 70. -/
def whitespaceMsg (rawKey : String) : String :=
  "Whitespace in variable name: \"" ++ rawKey ++ "\""

/- parser.ts line 104. -/
def dupMsg (key : String) (lines : List Nat) : String :=
  "Duplicate variable: " ++ key ++ " (also defined on line" ++
    (if lines.length > 2 then "s" else "") ++ " " ++
    String.intercalate ", " (lines.dropLast.map toString) ++ ")"

/- The body of parseEnvFile's loop (parser.ts lines 30-96) for one line. -/
def processLine (st : ParseState) (lineNumber : Nat) (line : String) : ParseState :=
  let trimmedLine := jsTrim line
  if trimmedLine = "" then
    { st with pendingComments := [] }
  else if trimmedLine.data.head? = some '#' then
    { st with pendingComments := st.pendingComments ++ [jsTrim ⟨trimmedLine.data.drop 1⟩] }
  else
    match matchAssignment line with
    | none =>
      let st' :=
        if trimmedLine ≠ "" then
          { st with errors := st.errors ++ [⟨lineNumber, invalidSyntaxMsg trimmedLine, ErrType.warning⟩] }
        else st
      { st' with pendingComments := [] }
    | some (rawKey, rawValue) =>
      let key := jsTrim rawKey
      let st' :=
        if rawKey ≠ key then
          { st with errors := st.errors ++ [⟨lineNumber, whitespaceMsg rawKey, ErrType.warning⟩] }
        else st
      let pv := parseValue rawValue
      let st'' := { st' with keyLines := keyLinesAdd st'.keyLines key lineNumber }
      { st'' with
        vars := mapSet st''.vars key
          ⟨key, pv.value, lineNumber, st''.pendingComments, pv.hasQuotes, pv.quoteChar⟩,
        pendingComments := [] }

def initState : ParseState := ⟨[], [], [], []⟩

/- JS `content.split('\n')` (keeps empty segments; `""` gives `[""]`). -/
def splitLines (content : String) : List String :=
  (content.data.splitOn '\n').map (fun l => ⟨l⟩)

def parseLinesAux (st : ParseState) : List (Nat × String) → ParseState
  | [] => st
  | p :: rest => parseLinesAux (processLine st (p.1 + 1) p.2) rest

def parseLines (lines : List String) : ParseState :=
  parseLinesAux initState lines.enum

/- parser.ts lines 98-108: collect duplicates and their warnings. -/
def collectDuplicatesAux (acc : List (String × List Nat) × List ParseError) :
    List (String × List Nat) → List (String × List Nat) × List ParseError
  | [] => acc
  | p :: rest =>
    collectDuplicatesAux
      (if p.2.length > 1 then
        (acc.1 ++ [p], acc.2 ++ [⟨p.2.getLastD 0, dupMsg p.1 p.2, ErrType.warning⟩])
      else acc) rest

def collectDuplicates (keyLines : List (String × List Nat)) :
    List (String × List Nat) × List ParseError :=
  collectDuplicatesAux ([], []) keyLines

/- types.ts `ParsedEnvFile`. -/
structure ParsedEnvFile where
  vars : List (String × EnvVariable)
  duplicates : List (String × List Nat)
  errors : List ParseError
  filePath : String
deriving DecidableEq, Repr

/- parser.ts `parseEnvFile` (lines 8-116). `file` is the content handed
   over by the host file system, `none` when the file does not exist. -/
def parseEnvFile (file : Option String) (filePath : String) : ParsedEnvFile :=
  match file with
  | none => ⟨[], [], [⟨0, "File not found: " ++ filePath, ErrType.error⟩], filePath⟩
  | some content =>
    let st := parseLines (splitLines content)
    let dups := collectDuplicates st.keyLines
    ⟨st.vars, dups.1, st.errors ++ dups.2, filePath⟩

/- Regex tests used by inferType (parser.ts lines 161-171). Each is the
   exact language of the corresponding anchored pattern. -/

/- `/^-?\d+$/` -/
def testInteger (cs0 : List Char) : Bool :=
  let cs := if cs0.head? = some '-' then cs0.tail else cs0
  !cs.isEmpty && cs.all Char.isDigit

/- `/^-?\d+\.\d+$/` -/
def testNumber (cs0 : List Char) : Bool :=
  let cs := if cs0.head? = some '-' then cs0.tail else cs0
  let ip := cs.takeWhile Char.isDigit
  let rest := cs.drop ip.length
  !ip.isEmpty && rest.head? == some '.' &&
    (!(rest.drop 1).isEmpty && (rest.drop 1).all Char.isDigit)

/- `/^https?:\/\//` -/
def testUrl (cs : List Char) : Bool :=
  "http://".data.isPrefixOf cs || "https://".data.isPrefixOf cs

def isEmailLocalChar (c : Char) : Bool :=
  c.isAlphanum || c == '.' || c == '_' || c == '%' || c == '+' || c == '-'

def isEmailDomainChar (c : Char) : Bool :=
  c.isAlphanum || c == '.' || c == '-'

/- `/^[a-zA-Z0-9._%+-]+@[a-zA-Z0-9.-]+\.[a-zA-Z]{2,}$/`: neither class
   contains `@`, so the string has exactly one `@` preceded by a
   non-empty local part; the TLD class has no `.`, so the separating dot
   is the last dot after the `@`. -/
def testEmail (cs : List Char) : Bool :=
  let localPart := cs.takeWhile (fun c => c != '@')
  let rest := (cs.dropWhile (fun c => c != '@')).drop 1
  !localPart.isEmpty && localPart.all isEmailLocalChar &&
    localPart.length + 1 ≤ cs.length &&
    !rest.contains '@' &&
    (let tld := (rest.reverse.takeWhile (fun c => c != '.')).reverse
     let domain := rest.take (rest.length - (tld.length + 1))
     rest.contains '.' && !domain.isEmpty && domain.all isEmailDomainChar &&
       tld.length ≥ 2 && tld.all (fun c => c.isAlpha))

/- `/^\d{1,3}\.\d{1,3}\.\d{1,3}\.\d{1,3}$/`: digit groups contain no
   dot, so the decomposition is the split on dots. -/
def testIp (cs : List Char) : Bool :=
  let parts := cs.splitOn '.'
  parts.length == 4 &&
    parts.all (fun p => 1 ≤ p.length && p.length ≤ 3 && p.all Char.isDigit)

/- parser.ts `inferType` (lines 161-171): nine predicates evaluated
   top-to-bottom, first match wins. -/
def inferType (value : String) : String :=
  let cs := value.data
  if value = "" then "empty"
  else if value = "true" ∨ value = "false" then "boolean"
  else if testInteger cs then "integer"
  else if testNumber cs then "number"
  else if testUrl cs then "url"
  else if testEmail cs then "email"
  else if testIp cs then "ip address"
  else if cs.contains ':' && listIsInfixOf "//".data cs then "connection string"
  else "string"

/- parser.ts `findCaseMismatches` (lines 176-192). The lookup is
   `new Map(keysB.map(k => [k.toLowerCase(), k]))`: insertion order with
   last-write-wins on equal lowered keys. -/
def buildLowerMapAux (m : List (String × String)) : List String → List (String × String)
  | [] => m
  | k :: rest => buildLowerMapAux (mapSet m (jsToLower k) k) rest

def buildLowerMap (keysB : List String) : List (String × String) :=
  buildLowerMapAux [] keysB

/- The guard `matchingKeyB && matchingKeyB !== keyA`: the only falsy
   string is `""`, hence the first conjunct. -/
def fcmStep (lowerKeysB : List (String × String)) (mismatches : List (String × String))
    (keyA : String) : List (String × String) :=
  match mapGet lowerKeysB (jsToLower keyA) with
  | some matchingKeyB =>
    if matchingKeyB ≠ "" ∧ matchingKeyB ≠ keyA then mismatches ++ [(keyA, matchingKeyB)]
    else mismatches
  | none => mismatches

def findCaseMismatchesAux (lowerKeysB : List (String × String))
    (mismatches : List (String × String)) : List String → List (String × String)
  | [] => mismatches
  | keyA :: rest => findCaseMismatchesAux lowerKeysB (fcmStep lowerKeysB mismatches keyA) rest

def findCaseMismatches (keysA keysB : List String) : List (String × String) :=
  findCaseMismatchesAux (buildLowerMap keysB) [] keysA

/- types.ts `ExplainResult`. `varName` stands for the source field
   `variable`, which is a reserved word in Lean. Optional fields are
   `none` while unpopulated. -/
structure ExplainResult where
  varName : String
  found : Bool
  purpose : Option String
  comments : Option (List String)
  exampleValue : Option String
  inferredType : Option String
deriving DecidableEq, Repr

/- explain.ts lines 30-48: result construction of explainCommand. -/
def explainCore (parsed : ParsedEnvFile) (varName : String) : ExplainResult :=
  match mapGet parsed.vars varName with
  | none =>
    { varName := varName, found := false, purpose := none, comments := none,
      exampleValue := none, inferredType := none }
  | some v =>
    { varName := varName
      found := true
      purpose := if v.comments.length > 0 then some (String.intercalate " " v.comments) else none
      comments := some v.comments
      exampleValue := some v.value
      inferredType := some (inferType v.value) }

/- types.ts `CheckResult`; caseMismatches pairs are (envKey, exampleKey),
   whitespaceIssues pairs are (key, issue). -/
structure CheckResult where
  missing : List String
  empty : List String
  extra : List String
  caseMismatches : List (String × String)
  duplicates : List (String × List Nat)
  whitespaceIssues : List (String × String)
  errors : Nat
  warnings : Nat
deriving DecidableEq, Repr

def emptyCheckResult : CheckResult := ⟨[], [], [], [], [], [], 0, 0⟩

/- explain.ts lines 184-187. -/
def addMismatches : CheckResult → List (String × String) → CheckResult
  | r, [] => r
  | r, m :: rest =>
    addMismatches
      { r with caseMismatches := r.caseMismatches ++ [m], errors := r.errors + 1 } rest

/- Condition of explain.ts line 191. -/
def missingCond (env : ParsedEnvFile) (cmExampleKeys : List String) (key : String) : Bool :=
  !(mapHas env.vars key) && !(cmExampleKeys.contains key)

/- explain.ts lines 190-195. -/
def addMissing (env : ParsedEnvFile) (cmExampleKeys : List String) :
    CheckResult → List String → CheckResult
  | r, [] => r
  | r, key :: rest =>
    addMissing env cmExampleKeys
      (if missingCond env cmExampleKeys key then
        { r with missing := r.missing ++ [key], errors := r.errors + 1 }
      else r) rest

/- Condition of explain.ts line 200 (`envVar && envVar.value === ''`). -/
def emptyCond (env : ParsedEnvFile) (key : String) : Bool :=
  match mapGet env.vars key with
  | some envVar => envVar.value == ""
  | none => false

/- explain.ts lines 198-204. -/
def addEmpty (env : ParsedEnvFile) : CheckResult → List String → CheckResult
  | r, [] => r
  | r, key :: rest =>
    addEmpty env
      (if emptyCond env key then
        { r with empty := r.empty ++ [key], warnings := r.warnings + 1 }
      else r) rest

/- Condition of explain.ts line 208. -/
def extraCond (ex : ParsedEnvFile) (cmEnvKeys : List String) (key : String) : Bool :=
  !(mapHas ex.vars key) && !(cmEnvKeys.contains key)

/- explain.ts lines 207-212. -/
def addExtra (ex : ParsedEnvFile) (cmEnvKeys : List String) :
    CheckResult → List String → CheckResult
  | r, [] => r
  | r, key :: rest =>
    addExtra ex cmEnvKeys
      (if extraCond ex cmEnvKeys key then
        { r with extra := r.extra ++ [key], warnings := r.warnings + 1 }
      else r) rest

/- explain.ts lines 215-218. -/
def addDuplicates : CheckResult → List (String × List Nat) → CheckResult
  | r, [] => r
  | r, d :: rest =>
    addDuplicates
      { r with duplicates := r.duplicates ++ [d], warnings := r.warnings + 1 } rest

/- JS `err.message.match(/variable name: "(.+?)"/)` capture attempt at
   the start of `s` (text right after one marker occurrence): the lazy
   `(.+?)` takes everything up to the first `"` at index ≥ 1, and `.`
   matches no LineTerminator. -/
def wsTryCapture (s : List Char) : Option (List Char) :=
  match s with
  | [] => none
  | c :: rest =>
    let body := rest.takeWhile (fun d => d != '"')
    let cap := c :: body
    if (rest.drop body.length).head? = some '"' ∧ cap.all (fun d => !(isLineTerminator d)) then
      some cap
    else none

/- Scan for the leftmost marker occurrence whose capture succeeds,
   mirroring the regex engine's restart-at-next-position behaviour. -/
def wsExtract : List Char → Option (List Char)
  | [] => none
  | c :: rest =>
    if "variable name: \"".data.isPrefixOf (c :: rest) then
      match wsTryCapture ((c :: rest).drop "variable name: \"".data.length) with
      | some cap => some cap
      | none => wsExtract rest
    else wsExtract rest

/- explain.ts lines 221-229, one error record. -/
def wsIssueOf (err : ParseError) : Option (String × String) :=
  if listIsInfixOf "Whitespace".data err.message.data then
    match wsExtract err.message.data with
    | some cap => some (⟨cap⟩, "leading/trailing whitespace")
    | none => none
  else none

def addWhitespace : CheckResult → List ParseError → CheckResult
  | r, [] => r
  | r, err :: rest =>
    addWhitespace
      (match wsIssueOf err with
       | some issue =>
         { r with whitespaceIssues := r.whitespaceIssues ++ [issue], warnings := r.warnings + 1 }
       | none => r) rest

/- explain.ts `checkCommand` result construction (lines 164-229). -/
def checkCore (exampleParsed envParsed : ParsedEnvFile) : CheckResult :=
  let exampleKeys := mapKeys exampleParsed.vars
  let envKeys := mapKeys envParsed.vars
  let caseMismatches := findCaseMismatches envKeys exampleKeys
  let cmEnvKeys := caseMismatches.map (fun m => m.1)
  let cmExampleKeys := caseMismatches.map (fun m => m.2)
  let r1 := addMismatches emptyCheckResult caseMismatches
  let r2 := addMissing envParsed cmExampleKeys r1 exampleKeys
  let r3 := addEmpty envParsed r2 exampleKeys
  let r4 := addExtra exampleParsed cmEnvKeys r3 envKeys
  let r5 := addDuplicates r4 envParsed.duplicates
  addWhitespace r5 envParsed.errors

/- Characterisations of the checkCommand loops: each loop appends to one
   list and bumps one counter in lockstep. -/

lemma addMismatches_eq (l : List (String × String)) (r : CheckResult) :
    addMismatches r l =
      { r with caseMismatches := r.caseMismatches ++ l, errors := r.errors + l.length } := by
  induction l generalizing r with
  | nil => simp [addMismatches]
  | cons m rest ih =>
    simp [addMismatches, ih, List.append_assoc]
    omega

lemma addMissing_eq (env : ParsedEnvFile) (cmEx : List String) (keys : List String)
    (r : CheckResult) :
    addMissing env cmEx r keys =
      { r with missing := r.missing ++ keys.filter (missingCond env cmEx),
               errors := r.errors + (keys.filter (missingCond env cmEx)).length } := by
  induction keys generalizing r with
  | nil => simp [addMissing]
  | cons key rest ih =>
    cases hc : missingCond env cmEx key <;>
      simp [addMissing, hc, ih, List.filter_cons, List.append_assoc] <;> omega

lemma addEmpty_eq (env : ParsedEnvFile) (keys : List String) (r : CheckResult) :
    addEmpty env r keys =
      { r with empty := r.empty ++ keys.filter (emptyCond env),
               warnings := r.warnings + (keys.filter (emptyCond env)).length } := by
  induction keys generalizing r with
  | nil => simp [addEmpty]
  | cons key rest ih =>
    cases hc : emptyCond env key <;>
      simp [addEmpty, hc, ih, List.filter_cons, List.append_assoc] <;> omega

lemma addExtra_eq (ex : ParsedEnvFile) (cmEnv : List String) (keys : List String)
    (r : CheckResult) :
    addExtra ex cmEnv r keys =
      { r with extra := r.extra ++ keys.filter (extraCond ex cmEnv),
               warnings := r.warnings + (keys.filter (extraCond ex cmEnv)).length } := by
  induction keys generalizing r with
  | nil => simp [addExtra]
  | cons key rest ih =>
    cases hc : extraCond ex cmEnv key <;>
      simp [addExtra, hc, ih, List.filter_cons, List.append_assoc] <;> omega

lemma addDuplicates_eq (l : List (String × List Nat)) (r : CheckResult) :
    addDuplicates r l =
      { r with duplicates := r.duplicates ++ l, warnings := r.warnings + l.length } := by
  induction l generalizing r with
  | nil => simp [addDuplicates]
  | cons d rest ih =>
    simp [addDuplicates, ih, List.append_assoc]
    omega

lemma addWhitespace_eq (l : List ParseError) (r : CheckResult) :
    addWhitespace r l =
      { r with whitespaceIssues := r.whitespaceIssues ++ l.filterMap wsIssueOf,
               warnings := r.warnings + (l.filterMap wsIssueOf).length } := by
  induction l generalizing r with
  | nil => simp [addWhitespace]
  | cons err rest ih =>
    cases hc : wsIssueOf err <;>
      simp [addWhitespace, hc, ih, List.filterMap_cons, List.append_assoc] <;> omega

/- The full checkCommand result as one record. -/
lemma checkCore_eq (ex env : ParsedEnvFile) :
    checkCore ex env =
      { missing := (mapKeys ex.vars).filter
          (missingCond env ((findCaseMismatches (mapKeys env.vars) (mapKeys ex.vars)).map (fun m => m.2)))
        empty := (mapKeys ex.vars).filter (emptyCond env)
        extra := (mapKeys env.vars).filter
          (extraCond ex ((findCaseMismatches (mapKeys env.vars) (mapKeys ex.vars)).map (fun m => m.1)))
        caseMismatches := findCaseMismatches (mapKeys env.vars) (mapKeys ex.vars)
        duplicates := env.duplicates
        whitespaceIssues := env.errors.filterMap wsIssueOf
        errors := (findCaseMismatches (mapKeys env.vars) (mapKeys ex.vars)).length +
          ((mapKeys ex.vars).filter
            (missingCond env ((findCaseMismatches (mapKeys env.vars) (mapKeys ex.vars)).map (fun m => m.2)))).length
        warnings := ((mapKeys ex.vars).filter (emptyCond env)).length +
          ((mapKeys env.vars).filter
            (extraCond ex ((findCaseMismatches (mapKeys env.vars) (mapKeys ex.vars)).map (fun m => m.1)))).length +
          env.duplicates.length + (env.errors.filterMap wsIssueOf).length } := by
  simp [checkCore, addMismatches_eq, addMissing_eq, addEmpty_eq, addExtra_eq,
    addDuplicates_eq, addWhitespace_eq, emptyCheckResult]

/-- C1: for every pair of parsed documents, check's `missing` list contains
exactly the example keys with no exact-case entry in the env document that
are not the example side of any case-mismatch pair, and its `extra` list
contains exactly the env keys with no exact-case entry in the example
document that are not the env side of any case-mismatch pair. -/
theorem check_missing_extra_exact (ex env : ParsedEnvFile) (k : String) :
    (k ∈ (checkCore ex env).missing ↔
      k ∈ mapKeys ex.vars ∧ mapHas env.vars k = false ∧
        ∀ p ∈ findCaseMismatches (mapKeys env.vars) (mapKeys ex.vars), p.2 ≠ k) ∧
    (k ∈ (checkCore ex env).extra ↔
      k ∈ mapKeys env.vars ∧ mapHas ex.vars k = false ∧
        ∀ p ∈ findCaseMismatches (mapKeys env.vars) (mapKeys ex.vars), p.1 ≠ k) := by
  rw [checkCore_eq]
  constructor
  · simp [List.mem_filter, missingCond, List.mem_map]
    aesop
  · simp [List.mem_filter, extraCond, List.mem_map]
    aesop

theorem check_missing_extra_exact_witness :
    "B" ∈ (checkCore (parseEnvFile (some "A=1\nB=\n") "e")
      (parseEnvFile (some "a=1\nC=3\n") "v")).missing :=
  (check_missing_extra_exact (parseEnvFile (some "A=1\nB=\n") "e")
    (parseEnvFile (some "a=1\nC=3\n") "v") "B").1.mpr (by decide)

/-- C7: the error counter equals missing plus case mismatches, the warning
counter equals empty plus extra plus duplicates plus whitespace issues, and
both are zero exactly when every issue list is empty. -/
theorem check_counters (ex env : ParsedEnvFile) :
    ((checkCore ex env).errors =
      (checkCore ex env).missing.length + (checkCore ex env).caseMismatches.length) ∧
    ((checkCore ex env).warnings =
      (checkCore ex env).empty.length + (checkCore ex env).extra.length +
        (checkCore ex env).duplicates.length + (checkCore ex env).whitespaceIssues.length) ∧
    (((checkCore ex env).errors = 0 ∧ (checkCore ex env).warnings = 0) ↔
      ((checkCore ex env).missing = [] ∧ (checkCore ex env).empty = [] ∧
       (checkCore ex env).extra = [] ∧ (checkCore ex env).caseMismatches = [] ∧
       (checkCore ex env).duplicates = [] ∧ (checkCore ex env).whitespaceIssues = [])) := by
  rw [checkCore_eq]
  refine ⟨by simp; try omega, by simp; try omega, ?_⟩
  simp [Nat.add_eq_zero, List.length_eq_zero]
  tauto

theorem check_counters_witness :
    (checkCore (parseEnvFile (some "A=1\nB=\n") "e")
        (parseEnvFile (some "a=1\nC=3\n") "v")).errors =
      (checkCore (parseEnvFile (some "A=1\nB=\n") "e")
          (parseEnvFile (some "a=1\nC=3\n") "v")).missing.length +
      (checkCore (parseEnvFile (some "A=1\nB=\n") "e")
          (parseEnvFile (some "a=1\nC=3\n") "v")).caseMismatches.length :=
  (check_counters (parseEnvFile (some "A=1\nB=\n") "e")
    (parseEnvFile (some "a=1\nC=3\n") "v")).1

/- Map and lookup lemmas for findCaseMismatches. -/

lemma mem_mapSet {α : Type} {m : List (String × α)} {k : String} {v : α} {q : String × α}
    (h : q ∈ mapSet m k v) : q ∈ m ∨ q = (k, v) := by
  unfold mapSet at h
  split at h
  · rcases List.mem_map.mp h with ⟨p, hp, hq⟩
    split at hq
    · right; exact hq.symm
    · left; exact hq ▸ hp
  · rcases List.mem_append.mp h with h1 | h1
    · left; exact h1
    · right; simpa using h1

lemma buildLowerMapAux_inv : ∀ (keysB : List String) (m : List (String × String)),
    (∀ q ∈ m, jsToLower q.2 = q.1) → ∀ q ∈ buildLowerMapAux m keysB, jsToLower q.2 = q.1 := by
  intro keysB
  induction keysB with
  | nil => intro m hm q hq; exact hm q hq
  | cons k rest ih =>
    intro m hm q hq
    refine ih _ ?_ q hq
    intro q' hq'
    rcases mem_mapSet hq' with h | h
    · exact hm q' h
    · rw [h]

lemma mapGet_eq_some {α : Type} {m : List (String × α)} {k : String} {v : α}
    (h : mapGet m k = some v) : (k, v) ∈ m := by
  unfold mapGet at h
  cases hf : m.find? (fun p => p.1 == k) with
  | none => rw [hf] at h; simp at h
  | some p =>
    rw [hf] at h
    simp at h
    have hmem := List.mem_of_find?_eq_some hf
    have hpred := List.find?_some hf
    have h1 : p.1 = k := by simpa using hpred
    have h2 : p = (k, v) := by
      cases p
      simp_all
    exact h2 ▸ hmem

lemma string_data_nil {s : String} (h : s.data = []) : s = "" := by
  cases s
  simp_all

lemma fcmStep_none {lm : List (String × String)} {acc : List (String × String)} {keyA : String}
    (h : mapGet lm (jsToLower keyA) = none) : fcmStep lm acc keyA = acc := by
  simp [fcmStep, h]

lemma fcmStep_pos {lm : List (String × String)} {acc : List (String × String)} {keyA b : String}
    (h : mapGet lm (jsToLower keyA) = some b) (hc : b ≠ "" ∧ b ≠ keyA) :
    fcmStep lm acc keyA = acc ++ [(keyA, b)] := by
  simp [fcmStep, h, hc.1, hc.2]

lemma fcmStep_neg {lm : List (String × String)} {acc : List (String × String)} {keyA b : String}
    (h : mapGet lm (jsToLower keyA) = some b) (hc : ¬(b ≠ "" ∧ b ≠ keyA)) :
    fcmStep lm acc keyA = acc := by
  simp only [fcmStep, h]
  rw [if_neg hc]

lemma findCaseMismatchesAux_mem (lm : List (String × String)) :
    ∀ (keysA : List String) (acc : List (String × String)) (p : String × String),
      p ∈ findCaseMismatchesAux lm acc keysA ↔
        p ∈ acc ∨ (p.1 ∈ keysA ∧ mapGet lm (jsToLower p.1) = some p.2 ∧ p.2 ≠ "" ∧ p.2 ≠ p.1) := by
  intro keysA
  induction keysA with
  | nil => intro acc p; simp [findCaseMismatchesAux]
  | cons keyA rest ih =>
    intro acc p
    simp only [findCaseMismatchesAux]
    cases hg : mapGet lm (jsToLower keyA) with
    | none =>
      rw [fcmStep_none hg, ih]
      constructor
      · rintro (h | ⟨h1, h2, h3, h4⟩)
        · exact Or.inl h
        · exact Or.inr ⟨List.mem_cons_of_mem _ h1, h2, h3, h4⟩
      · rintro (h | ⟨h1, h2, h3, h4⟩)
        · exact Or.inl h
        · rcases List.mem_cons.mp h1 with hp | hp
          · rw [hp] at h2; rw [hg] at h2; exact absurd h2 (by simp)
          · exact Or.inr ⟨hp, h2, h3, h4⟩
    | some b =>
      by_cases hc : b ≠ "" ∧ b ≠ keyA
      · rw [fcmStep_pos hg hc, ih]
        constructor
        · rintro (h | ⟨h1, h2, h3, h4⟩)
          · rcases List.mem_append.mp h with h5 | h5
            · exact Or.inl h5
            · have hpb : p = (keyA, b) := by simpa using h5
              refine Or.inr ⟨?_, ?_, ?_, ?_⟩
              · rw [hpb]; exact List.mem_cons_self _ _
              · rw [hpb]; simpa using hg
              · rw [hpb]; exact hc.1
              · rw [hpb]; exact hc.2
          · exact Or.inr ⟨List.mem_cons_of_mem _ h1, h2, h3, h4⟩
        · rintro (h | ⟨h1, h2, h3, h4⟩)
          · exact Or.inl (List.mem_append_left _ h)
          · rcases List.mem_cons.mp h1 with hp | hp
            · rw [hp] at h2
              rw [hg] at h2
              have hpb : p = (keyA, b) := by
                cases p
                simp_all
              exact Or.inl (List.mem_append_right _ (by simp [hpb]))
            · exact Or.inr ⟨hp, h2, h3, h4⟩
      · rw [fcmStep_neg hg hc, ih]
        constructor
        · rintro (h | ⟨h1, h2, h3, h4⟩)
          · exact Or.inl h
          · exact Or.inr ⟨List.mem_cons_of_mem _ h1, h2, h3, h4⟩
        · rintro (h | ⟨h1, h2, h3, h4⟩)
          · exact Or.inl h
          · rcases List.mem_cons.mp h1 with hp | hp
            · rw [hp] at h2
              rw [hg] at h2
              have hb : b = p.2 := by simpa using h2
              rw [hp] at h4
              exact absurd ⟨hb ▸ h3, hb ▸ h4⟩ hc
            · exact Or.inr ⟨hp, h2, h3, h4⟩

/-- C6: findCaseMismatches records a pair (keyA, keyB) exactly when the
case-insensitive lookup built from keysB maps the lower-cased keyA to an
original keyB different from keyA; exact-case matches are excluded, as the
two concrete examples show. -/
theorem findCaseMismatches_exact (keysA keysB : List String) (a b : String) :
    ((a, b) ∈ findCaseMismatches keysA keysB ↔
      a ∈ keysA ∧ mapGet (buildLowerMap keysB) (jsToLower a) = some b ∧ b ≠ a) ∧
    findCaseMismatches ["db_url"] ["DB_URL"] = [("db_url", "DB_URL")] ∧
    findCaseMismatches ["DB_URL"] ["DB_URL"] = [] := by
  refine ⟨?_, by decide, by decide⟩
  unfold findCaseMismatches
  rw [findCaseMismatchesAux_mem]
  simp only [List.not_mem_nil, false_or]
  constructor
  · rintro ⟨h1, h2, _, h4⟩; exact ⟨h1, h2, h4⟩
  · rintro ⟨h1, h2, h4⟩
    refine ⟨h1, h2, ?_, h4⟩
    intro hb
    have hmem : (jsToLower a, b) ∈ buildLowerMap keysB := mapGet_eq_some h2
    have hinv := buildLowerMapAux_inv keysB [] (by simp) _ hmem
    simp only [] at hinv
    have ha : jsToLower a = "" := by rw [← hinv, hb]; rfl
    have ha2 : a.data.map Char.toLower = [] := by
      have := congrArg String.data ha
      simpa [jsToLower] using this
    have ha3 : a.data = [] := by simpa using ha2
    exact h4 (hb.trans (string_data_nil ha3).symm)

theorem findCaseMismatches_witness :
    ("db_url", "DB_URL") ∈ findCaseMismatches ["db_url"] ["DB_URL"] :=
  (findCaseMismatches_exact ["db_url"] ["DB_URL"] "db_url" "DB_URL").1.mpr (by decide)

/- Every diagnostic appended while processing content lines is a warning. -/

lemma processLine_errors {st : ParseState} {n : Nat} {l : String} {e : ParseError}
    (h : e ∈ (processLine st n l).errors) : e ∈ st.errors ∨ e.type = ErrType.warning := by
  simp only [processLine] at h
  split at h
  · exact Or.inl h
  · split at h
    · exact Or.inl h
    · split at h
      · rcases List.mem_append.mp h with h4 | h4
        · exact Or.inl h4
        · rw [List.mem_singleton] at h4
          rw [h4]
          exact Or.inr rfl
      · split at h
        · rcases List.mem_append.mp h with h4 | h4
          · exact Or.inl h4
          · rw [List.mem_singleton] at h4
            rw [h4]
            exact Or.inr rfl
        · exact Or.inl h

lemma parseLinesAux_errors : ∀ (ps : List (Nat × String)) (st : ParseState) (e : ParseError),
    e ∈ (parseLinesAux st ps).errors → e ∈ st.errors ∨ e.type = ErrType.warning := by
  intro ps
  induction ps with
  | nil => intro st e h; exact Or.inl h
  | cons p rest ih =>
    intro st e h
    simp only [parseLinesAux] at h
    rcases ih (processLine st (p.1 + 1) p.2) e h with h1 | h1
    · exact processLine_errors h1
    · exact Or.inr h1

lemma collectDuplicatesAux_errors :
    ∀ (kls : List (String × List Nat)) (acc : List (String × List Nat) × List ParseError)
      (e : ParseError),
    e ∈ (collectDuplicatesAux acc kls).2 → e ∈ acc.2 ∨ e.type = ErrType.warning := by
  intro kls
  induction kls with
  | nil => intro acc e h; exact Or.inl h
  | cons p rest ih =>
    intro acc e h
    simp only [collectDuplicatesAux] at h
    rcases ih _ e h with h1 | h1
    · by_cases hc : p.2.length > 1
      · rw [if_pos hc] at h1
        rcases List.mem_append.mp h1 with h2 | h2
        · exact Or.inl h2
        · rw [List.mem_singleton] at h2
          rw [h2]
          exact Or.inr rfl
      · rw [if_neg hc] at h1
        exact Or.inl h1
    · exact Or.inr h1

/-- C8: a missing or unreadable file parses to a document with zero entries
and exactly one error-severity diagnostic "File not found: <path>"; parsing
any content never produces an error-severity diagnostic (all content
anomalies are warnings). -/
theorem parse_never_errors (path content : String) (e : ParseError) :
    (parseEnvFile none path =
      ⟨[], [], [⟨0, "File not found: " ++ path, ErrType.error⟩], path⟩) ∧
    (e ∈ (parseEnvFile (some content) path).errors → e.type = ErrType.warning) := by
  refine ⟨rfl, ?_⟩
  intro h
  simp only [parseEnvFile, parseLines, collectDuplicates] at h
  rcases List.mem_append.mp h with h1 | h1
  · rcases parseLinesAux_errors _ _ _ h1 with h2 | h2
    · simp [initState] at h2
    · exact h2
  · rcases collectDuplicatesAux_errors _ _ _ h1 with h2 | h2
    · simp at h2
    · exact h2

theorem parse_never_errors_witness :
    (⟨1, "Invalid syntax: \"=x\"", ErrType.warning⟩ : ParseError).type = ErrType.warning :=
  (parse_never_errors "p" "=x" ⟨1, "Invalid syntax: \"=x\"", ErrType.warning⟩).2 (by decide)

/-- C9: a blank line always clears the pending-comment buffer, so comments
never leak across a blank-line boundary; in particular parsing
"# note\n\nKEY=1" leaves KEY with an empty comments list. -/
theorem blank_line_clears_comments :
    (∀ (st : ParseState) (n : Nat) (line : String), jsTrim line = "" →
      processLine st n line = { st with pendingComments := [] }) ∧
    mapGet (parseEnvFile (some "# note\n\nKEY=1") "p").vars "KEY" =
      some ⟨"KEY", "1", 3, [], false, none⟩ := by
  constructor
  · intro st n line h
    simp [processLine, h]
  · decide

theorem blank_line_witness :
    processLine ⟨[], [], [], ["note"]⟩ 2 "" = ⟨[], [], [], []⟩ :=
  blank_line_clears_comments.1 ⟨[], [], [], ["note"]⟩ 2 "" rfl

/-- C10: an assignment whose trimmed raw value is a lone quote character
takes the quoted-value branch (the single character is both the first and
last character), producing value "" with hasQuotes true and that quote
character, not an unterminated-quote pass-through. -/
theorem lone_quote_quoted_branch :
    (∀ rv : String, jsTrim rv = "\"" →
      parseValue rv = ⟨"", true, some '"'⟩) ∧
    (∀ rv : String, jsTrim rv = "'" →
      parseValue rv = ⟨"", true, some '\''⟩) := by
  constructor
  · intro rv h
    simp [parseValue, h]
    rfl
  · intro rv h
    simp [parseValue, h]

theorem lone_quote_witness :
    parseValue "\"" = ⟨"", true, some '"'⟩ :=
  lone_quote_quoted_branch.1 "\"" rfl

/-- C2: parsing the two lines KEY=value and KEY=value2 yields exactly one
entry for KEY with value "value2" and source line 2, duplicate lines [1, 2]
for KEY, and exactly one warning diagnostic naming all occurrence lines but
the last. -/
theorem parse_duplicate_last_wins :
    parseEnvFile (some "KEY=value\nKEY=value2") "p" =
      ⟨[("KEY", ⟨"KEY", "value2", 2, [], false, none⟩)],
       [("KEY", [1, 2])],
       [⟨2, "Duplicate variable: KEY (also defined on line 1)", ErrType.warning⟩],
       "p"⟩ := by
  decide

/-- C4: inferType applies its nine predicates top-to-bottom with the first
match winning: "0" infers integer (not boolean, not number), "true" infers
boolean, and "192.168.1.1" infers ip address (not connection string). -/
theorem inferType_precedence :
    inferType "0" = "integer" ∧ inferType "true" = "boolean" ∧
    inferType "192.168.1.1" = "ip address" ∧
    inferType "0" ≠ "boolean" ∧ inferType "0" ≠ "number" ∧
    inferType "192.168.1.1" ≠ "connection string" := by
  decide

/-- C5 (amended): explain looks the key up by exact case in the example
document only; if absent it returns found=false with no other field
populated; if present it returns found=true with exampleValue the stored
value, inferredType its inferType, comments the raw ordered comment list,
and purpose populated as the space-joined comment lines exactly when that
list is non-empty — purpose stays unpopulated when there are no comments. -/
theorem explain_lookup_exact (parsed : ParsedEnvFile) (key : String) :
    (mapGet parsed.vars key = none →
      explainCore parsed key = ⟨key, false, none, none, none, none⟩) ∧
    (∀ v : EnvVariable, mapGet parsed.vars key = some v →
      (explainCore parsed key).found = true ∧
      (explainCore parsed key).exampleValue = some v.value ∧
      (explainCore parsed key).inferredType = some (inferType v.value) ∧
      (explainCore parsed key).comments = some v.comments ∧
      (v.comments = [] → (explainCore parsed key).purpose = none) ∧
      (v.comments ≠ [] →
        (explainCore parsed key).purpose = some (String.intercalate " " v.comments))) := by
  constructor
  · intro h
    simp [explainCore, h]
  · intro v h
    refine ⟨by simp [explainCore, h], by simp [explainCore, h], by simp [explainCore, h],
            by simp [explainCore, h], ?_, ?_⟩
    · intro hc
      simp [explainCore, h, hc]
    · intro hc
      have hl : 0 < v.comments.length := List.length_pos.mpr hc
      simp [explainCore, h, hl]

/-- C5 counterexample: for a found key with no preceding comments the code
leaves purpose unpopulated instead of equal to the space-joined
concatenation of no comment lines (the empty string). -/
theorem explain_purpose_counterexample :
    (explainCore (parseEnvFile (some "KEY=1") "p") "KEY").found = true ∧
    (explainCore (parseEnvFile (some "KEY=1") "p") "KEY").comments = some [] ∧
    (explainCore (parseEnvFile (some "KEY=1") "p") "KEY").purpose = none ∧
    (explainCore (parseEnvFile (some "KEY=1") "p") "KEY").purpose ≠
      some (String.intercalate " " []) := by
  decide

theorem explain_lookup_witness :
    (explainCore (parseEnvFile (some "# Max connections\nDB_POOL_SIZE=10") "p")
      "DB_POOL_SIZE").purpose = some "Max connections" := by
  have h := (explain_lookup_exact
    (parseEnvFile (some "# Max connections\nDB_POOL_SIZE=10") "p") "DB_POOL_SIZE").2
    ⟨"DB_POOL_SIZE", "10", 2, ["Max connections"], false, none⟩ (by decide)
  have h2 := h.2.2.2.2.2 (by decide)
  rw [h2]
  rfl

/- List lemmas for the assignment-pattern characterisation. -/

lemma dropWhile_head_false {p : Char → Bool} :
    ∀ {cs : List Char} {a : Char} {t : List Char}, cs.dropWhile p = a :: t → p a = false := by
  intro cs
  induction cs with
  | nil => intro a t h; simp at h
  | cons c rest ih =>
    intro a t h
    rw [List.dropWhile_cons] at h
    split at h
    · exact ih h
    · next hpc =>
      injection h with h1 _
      subst h1
      simpa using hpc

lemma takeWhile_dropWhile_of_append {p : Char → Bool} :
    ∀ (u : List Char) (a : Char) (v : List Char),
      (∀ c ∈ u, p c = true) → p a = false →
      (u ++ a :: v).takeWhile p = u ∧ (u ++ a :: v).dropWhile p = a :: v := by
  intro u
  induction u with
  | nil =>
    intro a v _ hpa
    constructor
    · simp [List.takeWhile_cons, hpa]
    · simp [List.dropWhile_cons, hpa]
  | cons c u ih =>
    intro a v hu hpa
    have hpc : p c = true := hu c (List.mem_cons_self _ _)
    have hrec := ih a v (fun d hd => hu d (List.mem_cons_of_mem _ hd)) hpa
    constructor
    · simp [List.takeWhile_cons, hpc, hrec.1]
    · simp [List.dropWhile_cons, hpc, hrec.2]

lemma invalidSyntaxMsg_ne_whitespaceMsg (t rk : String) :
    invalidSyntaxMsg t ≠ whitespaceMsg rk := by
  intro h
  have hd : (invalidSyntaxMsg t).data.head? = (whitespaceMsg rk).data.head? := by rw [h]
  have hI : (invalidSyntaxMsg t).data.head? = some 'I' := rfl
  have hW : (whitespaceMsg rk).data.head? = some 'W' := rfl
  rw [hI, hW] at hd
  exact absurd hd (by decide)

/-- C3 (amended): for a line whose trimmed form is non-empty and does not
start with #, parse emits the "Invalid syntax" warning (with the trimmed
line, truncated to 50 characters with an ellipsis) if and only if the line
fails the assignment pattern ^([^=]+)=(.*)$ — that is, iff the line has no
decomposition into a non-empty =-free prefix, an =, and a suffix free of
line-terminator characters. On failure no entry is produced and the
pending-comment buffer is cleared; on a match the only diagnostic that can
be added is the whitespace-in-key warning, which is never an Invalid-syntax
message, an entry is stored, and the buffer is cleared. A line such as
"=x" therefore warns although it contains =. -/
theorem parse_invalid_syntax_iff (st : ParseState) (n : Nat) (line : String)
    (h1 : jsTrim line ≠ "") (h2 : (jsTrim line).data.head? ≠ some '#') :
    (matchAssignment line = none ↔
      ¬ ∃ u v : List Char, line.data = u ++ '=' :: v ∧ u ≠ [] ∧ '=' ∉ u ∧
        ∀ c ∈ v, isLineTerminator c = false) ∧
    (matchAssignment line = none →
      processLine st n line =
        { st with
            errors := st.errors ++ [⟨n, invalidSyntaxMsg (jsTrim line), ErrType.warning⟩],
            pendingComments := [] }) ∧
    (∀ rawKey rawValue : String, matchAssignment line = some (rawKey, rawValue) →
      (∀ e : ParseError, e ∈ (processLine st n line).errors →
        e ∈ st.errors ∨ e = ⟨n, whitespaceMsg rawKey, ErrType.warning⟩) ∧
      (∀ t : String, invalidSyntaxMsg t ≠ whitespaceMsg rawKey) ∧
      (processLine st n line).vars =
        mapSet st.vars (jsTrim rawKey)
          ⟨jsTrim rawKey, (parseValue rawValue).value, n, st.pendingComments,
           (parseValue rawValue).hasQuotes, (parseValue rawValue).quoteChar⟩ ∧
      (processLine st n line).pendingComments = []) := by
  refine ⟨⟨?_, ?_⟩, ?_, ?_⟩
  · intro hm hex
    rcases hex with ⟨u, v, heq, hu, hnu, hv⟩
    have hup : ∀ c ∈ u, (c != '=') = true := by
      intro c hc
      have : c ≠ '=' := fun h => hnu (h ▸ hc)
      simpa using this
    have hpa : (('=' : Char) != '=') = false := by simp
    have hdecomp := takeWhile_dropWhile_of_append (p := fun c => c != '=') u '=' v hup hpa
    simp only [matchAssignment] at hm
    rw [heq, hdecomp.1, hdecomp.2] at hm
    have hue : u.isEmpty = false := by
      cases u
      · exact absurd rfl hu
      · rfl
    have hva : v.any isLineTerminator = false := by
      cases hva : v.any isLineTerminator
      · rfl
      · rcases List.any_eq_true.mp hva with ⟨c, hc, hct⟩
        rw [hv c hc] at hct
        exact absurd hct (by simp)
    simp [hue, hva] at hm
  · intro hnex
    simp only [matchAssignment]
    cases hrest : line.data.dropWhile (fun c => c != '=') with
    | nil => simp [hrest]
    | cons e post =>
      have hpe := dropWhile_head_false (p := fun c => c != '=') hrest
      have he : e = '=' := by simpa using hpe
      by_cases hue : (line.data.takeWhile (fun c => c != '=')).isEmpty
      · simp [hrest, hue]
      · by_cases hva : post.any isLineTerminator
        · simp [hrest, hue, hva]
        · exfalso
          apply hnex
          refine ⟨line.data.takeWhile (fun c => c != '='), post, ?_, ?_, ?_, ?_⟩
          · conv_lhs =>
              rw [← List.takeWhile_append_dropWhile (p := fun c => c != '=') (l := line.data)]
            rw [hrest, he]
          · intro h0
            rw [h0] at hue
            exact hue rfl
          · intro hmem
            have := List.mem_takeWhile_imp hmem
            simp at this
          · intro c hc
            cases hct : isLineTerminator c
            · rfl
            · exact absurd (List.any_eq_true.mpr ⟨c, hc, hct⟩) hva
  · intro hm
    simp [processLine, h1, h2, hm]
  · intro rawKey rawValue hsome
    refine ⟨?_, fun t => invalidSyntaxMsg_ne_whitespaceMsg t rawKey, ?_, ?_⟩
    · intro e he
      by_cases hws : rawKey ≠ jsTrim rawKey
      · simp [processLine, h1, h2, hsome, hws] at he
        rcases he with he | he
        · exact Or.inl he
        · exact Or.inr (by simp [he])
      · simp [processLine, h1, h2, hsome, hws] at he
        exact Or.inl he
    · by_cases hws : rawKey ≠ jsTrim rawKey
      · simp [processLine, h1, h2, hsome, hws]
      · simp [processLine, h1, h2, hsome, hws]
    · by_cases hws : rawKey ≠ jsTrim rawKey
      · simp [processLine, h1, h2, hsome, hws]
      · simp [processLine, h1, h2, hsome, hws]

/-- C3 counterexample: the line "=x" contains the character = yet parsing
it emits the Invalid syntax warning, refuting "warning iff the line
contains no = character". -/
theorem parse_invalid_syntax_counterexample :
    '=' ∈ "=x".data ∧
    (parseEnvFile (some "=x") "p").errors =
      [⟨1, "Invalid syntax: \"=x\"", ErrType.warning⟩] := by
  constructor
  · decide
  · decide

theorem parse_invalid_syntax_witness :
    processLine ⟨[], [], [], []⟩ 1 "=x" =
      ⟨[], [], [⟨1, invalidSyntaxMsg (jsTrim "=x"), ErrType.warning⟩], []⟩ :=
  (parse_invalid_syntax_iff ⟨[], [], [], []⟩ 1 "=x" (by decide) (by decide)).2.1 (by decide)

end Envsure
